import Mathlib

/-- Python `str` embedded as a list of characters. -/
abbrev Str := List Char

/-- Python truthiness of an optional string (`None` and `""` are falsy). -/
def truthyStr : Option Str → Bool
  | none => false
  | some s => !s.isEmpty

/-- Scanner for `(?:,\d{3})*`: greedily consumes comma groups of exactly
three digits, returning the consumed characters and the rest. -/
def commaGroups : Str → Str × Str
  | ',' :: a :: b :: c :: rest =>
    if a.isDigit && b.isDigit && c.isDigit then
      let (m, r) := commaGroups rest
      (',' :: a :: b :: c :: m, r)
    else ([], ',' :: a :: b :: c :: rest)
  | cs => ([], cs)

/-- Scanner for `(?:\.\d{2})?`: consumes a dot followed by exactly two
digits, if present. -/
def fracPart : Str → Str × Str
  | '.' :: a :: b :: rest =>
    if a.isDigit && b.isDigit then (['.', a, b], rest)
    else ([], '.' :: a :: b :: rest)
  | cs => ([], cs)

/-- Scanner for the capture group `\d+(?:,\d{3})*(?:\.\d{2})?` anchored at
the current position: `none` when the position does not start with a digit,
otherwise the matched group and the remaining text. -/
def numToken (cs : Str) : Option (Str × Str) :=
  match cs with
  | c :: _ =>
    if c.isDigit then
      let ds := cs.takeWhile Char.isDigit
      let r1 := cs.dropWhile Char.isDigit
      let (gs, r2) := commaGroups r1
      let (fs, r3) := fracPart r2
      some (ds ++ gs ++ fs, r3)
    else none
  | [] => none

/-- `re.search` of the bare numeric-token pattern: leftmost match of
`\d+(?:,\d{3})*(?:\.\d{2})?` (used on price strings by `filter_by_price` and
`sort_by_price`). -/
def searchNumToken : Str → Option Str
  | [] => none
  | c :: rest =>
    match numToken (c :: rest) with
    | some (tok, _) => some tok
    | none => searchNumToken rest

/-- Case-insensitive character comparison (models `re.IGNORECASE`). -/
def ciEq (a b : Char) : Bool := a.toLower == b.toLower

/-- Models `\s*`: greedily skip whitespace. -/
def skipSpaces (cs : Str) : Str := cs.dropWhile Char.isWhitespace

/-- Pattern `₹\s*(\d+(?:,\d{3})*(?:\.\d{2})?)` anchored at the current
position; returns the capture group. -/
def matchP1 : Str → Option Str
  | '₹' :: rest => (numToken (skipSpaces rest)).map Prod.fst
  | _ => none

/-- Scanner for an optional dot `\.?`: consume one dot if present. -/
def dotOpt : Str → Str
  | '.' :: r => r
  | r => r

/-- Pattern `Rs\.?\s*(\d+(?:,\d{3})*(?:\.\d{2})?)` (case-insensitive)
anchored at the current position. -/
def matchP2 : Str → Option Str
  | a :: b :: rest =>
    if ciEq a 'r' && ciEq b 's' then
      (numToken (skipSpaces (dotOpt rest))).map Prod.fst
    else none
  | _ => none

/-- Pattern `INR\s*(\d+(?:,\d{3})*(?:\.\d{2})?)` (case-insensitive) anchored
at the current position. -/
def matchP3 : Str → Option Str
  | a :: b :: c :: rest =>
    if ciEq a 'i' && ciEq b 'n' && ciEq c 'r' then
      (numToken (skipSpaces rest)).map Prod.fst
    else none
  | _ => none

/-- Pattern `(\d+(?:,\d{3})*(?:\.\d{2})?)\s*rupees?` (case-insensitive)
anchored at the current position; the trailing `s?` is at the end of the
pattern and so never constrains the match. -/
def matchP4 (cs : Str) : Option Str :=
  match numToken cs with
  | some (tok, rest) =>
    match skipSpaces rest with
    | r :: u :: p :: e1 :: e2 :: _ =>
      if ciEq r 'r' && ciEq u 'u' && ciEq p 'p' && ciEq e1 'e' && ciEq e2 'e' then
        some tok
      else none
    | _ => none
  | none => none

/-- Pattern `(\d+(?:,\d{3})*(?:\.\d{2})?)\s*₹` anchored at the current
position. -/
def matchP5 (cs : Str) : Option Str :=
  match numToken cs with
  | some (tok, rest) =>
    match skipSpaces rest with
    | '₹' :: _ => some tok
    | _ => none
  | none => none

/-- `re.search` for one anchored matcher: try every start position from the
left, returning the first capture group found. -/
def searchPat (m : Str → Option Str) : Str → Option Str
  | [] => m []
  | c :: rest =>
    match m (c :: rest) with
    | some g => some g
    | none => searchPat m rest

/-- The `for pattern in self.price_patterns` loop of
`ContentExtractor._extract_price`: patterns are tried in order, the first
pattern that matches anywhere in the text wins. -/
def priceSearch (text : Str) : Option Str :=
  match searchPat matchP1 text with
  | some g => some g
  | none =>
    match searchPat matchP2 text with
    | some g => some g
    | none =>
      match searchPat matchP3 text with
      | some g => some g
      | none =>
        match searchPat matchP4 text with
        | some g => some g
        | none => searchPat matchP5 text

/-- Python substring containment `needle in haystack`. -/
def subStrB (p : Str) : Str → Bool
  | [] => p.isEmpty
  | c :: rest => p.isPrefixOf (c :: rest) || subStrB p rest

/-- `any(symbol in price for symbol in ['₹', 'Rs', 'INR'])`. -/
def containsCurrencyMarker (s : Str) : Bool :=
  subStrB "₹".data s || subStrB "Rs".data s || subStrB "INR".data s

/-- `ContentExtractor._extract_price`: search the price patterns in order;
prepend `₹` to the captured group when it carries no currency marker. -/
def extract_price (text : Str) : Option Str :=
  if text.isEmpty then none
  else
    match priceSearch text with
    | some price =>
      if !containsCurrencyMarker price then some ('₹' :: price)
      else some price
    | none => none

/-- `ContentExtractor._normalize_url`. -/
def normalize_url (url : Str) : Str :=
  if url.isEmpty then []
  else if ("http://".data.isPrefixOf url || "https://".data.isPrefixOf url) then url
  else if "//".data.isPrefixOf url then "https:".data ++ url
  else if "/".data.isPrefixOf url then "https://example.com".data ++ url
  else "https://".data ++ url

/-- `ExtractedData` (the `raw_data` dict, a free-form bag unused by the
cross-record operations' key fields modeled here, is not carried). -/
structure ExtractedData where
  title : Option Str := none
  price : Option Str := none
  url : Option Str := none
  description : Option Str := none
  rating : Option Str := none
  image_url : Option Str := none
  deriving DecidableEq, Repr

/-- Digit string to a natural number. -/
def digitsToNat (ds : Str) : Nat :=
  ds.foldl (fun acc c => 10 * acc + (c.toNat - '0'.toNat)) 0

/-- `float(match.group(1).replace(',', ''))` on a scanned numeric token:
strip commas, then read `digits[.digits]` as an exact decimal. -/
def parseTokQ (tok : Str) : ℚ :=
  let t := tok.filter (fun c => !(c == ','))
  let ip := t.takeWhile (fun c => !(c == '.'))
  let fp := t.dropWhile (fun c => !(c == '.'))
  match fp with
  | '.' :: ds => (digitsToNat ip : ℚ) + (digitsToNat ds : ℚ) / ((10 : ℚ) ^ ds.length)
  | _ => (digitsToNat ip : ℚ)

/-- Python truthiness of an optional number (`None` and `0` are falsy). -/
def truthyQ : Option ℚ → Bool
  | none => false
  | some q => !(q == 0)

/-- The numeric value both `filter_by_price` and `sort_by_price` read off a
record: `none` when the price is absent/empty (falsy) or the numeric-token
regex finds no match; otherwise the parsed first numeric token.  (The
`ValueError` branches are unreachable: scanned tokens always parse.) -/
def price_value_of (item : ExtractedData) : Option ℚ :=
  match item.price with
  | none => none
  | some s => if s.isEmpty then none else (searchNumToken s).map parseTokQ

/-- The loop body of `ContentExtractor.filter_by_price`: a record survives
when its price parses and neither active bound excludes the value
(`if max_price and price_value > max_price: continue`, likewise for the
minimum). -/
def price_pred (max_price min_price : Option ℚ) (item : ExtractedData) : Bool :=
  match price_value_of item with
  | none => false
  | some v =>
    !(truthyQ max_price && decide (v > max_price.getD 0)) &&
    !(truthyQ min_price && decide (v < min_price.getD 0))

/-- `ContentExtractor.filter_by_price`.  Note `if not max_price and not
min_price: return data` and `if max_price and ...` use Python truthiness, so
a bound of `0` is treated as no bound. -/
def filter_by_price (data : List ExtractedData)
    (max_price min_price : Option ℚ) : List ExtractedData :=
  if !truthyQ max_price && !truthyQ min_price then data
  else data.filter (price_pred max_price min_price)

/-- `get_price_value` inside `ContentExtractor.sort_by_price`: unparsable
prices get `float('inf')` when `reverse` else `0.0`. -/
def get_price_value (reverse : Bool) (item : ExtractedData) : WithTop ℚ :=
  match price_value_of item with
  | some v => (v : WithTop ℚ)
  | none => if reverse then ⊤ else (0 : WithTop ℚ)

/-- `ContentExtractor.sort_by_price`: Python's stable `sorted` by
`get_price_value`, descending when `reverse`. -/
def sort_by_price (data : List ExtractedData) (reverse : Bool) : List ExtractedData :=
  if reverse then
    data.insertionSort fun a b => get_price_value true b ≤ get_price_value true a
  else
    data.insertionSort fun a b => get_price_value false a ≤ get_price_value false b

/-- `getattr(item, field, '')` for the string fields of `ExtractedData`
(an unknown field name yields the falsy default). -/
def fieldGet (item : ExtractedData) (field : String) : Option Str :=
  if field = "title" then item.title
  else if field = "price" then item.price
  else if field = "url" then item.url
  else if field = "description" then item.description
  else if field = "rating" then item.rating
  else if field = "image_url" then item.image_url
  else none

/-- `str(value).lower().strip()`. -/
def lowerStrip (s : Str) : Str :=
  (((s.map Char.toLower).dropWhile Char.isWhitespace).reverse.dropWhile
    Char.isWhitespace).reverse

/-- The composite key `'|'.join(key_parts)` built by
`ContentExtractor.deduplicate` for one record: truthy field values,
lowercased and stripped, joined by `|`. -/
def dedupKey (key_fields : List String) (item : ExtractedData) : Str :=
  let parts := key_fields.filterMap fun f =>
    match fieldGet item f with
    | some v => if v.isEmpty then none else some (lowerStrip v)
    | none => none
  List.intercalate ['|'] parts

/-- The `for item in data` loop of `ContentExtractor.deduplicate`, with the
`seen` set carried as an accumulator. -/
def dedupGo (kf : List String) (seen : List Str) :
    List ExtractedData → List ExtractedData
  | [] => []
  | item :: rest =>
    let k := dedupKey kf item
    if seen.contains k then dedupGo kf seen rest
    else item :: dedupGo kf (k :: seen) rest

/-- `ContentExtractor.deduplicate` (`key_fields=None`/`[]` defaults to
`['title', 'url']`). -/
def deduplicate (data : List ExtractedData) (key_fields : List String) :
    List ExtractedData :=
  let kf := if key_fields.isEmpty then ["title", "url"] else key_fields
  dedupGo kf [] data

def c6rec : ExtractedData := { title := some "x".data }

def c6wrec : ExtractedData := { price := some "₹500".data }

def c7p10 : ExtractedData := { price := some "₹10".data }

def c7noprice : ExtractedData := { title := some "y".data }

instance : IsTotal ExtractedData
    (fun a b => get_price_value false a ≤ get_price_value false b) :=
  ⟨fun _ _ => le_total _ _⟩

instance : IsTrans ExtractedData
    (fun a b => get_price_value false a ≤ get_price_value false b) :=
  ⟨fun _ _ _ => le_trans⟩

instance : IsTotal ExtractedData
    (fun a b => get_price_value true b ≤ get_price_value true a) :=
  ⟨fun _ _ => (le_total _ _).symm⟩

instance : IsTrans ExtractedData
    (fun a b => get_price_value true b ≤ get_price_value true a) :=
  ⟨fun _ _ _ h1 h2 => le_trans h2 h1⟩

/-- Python truthiness of an optional Lean-level string. -/
def truthyOptS : Option String → Bool
  | none => false
  | some s => !s.isEmpty

/-- One action dictionary (as produced by the model or the defaulting
logic), with every key optional as under `dict.get`. -/
structure ActionD where
  action : Option String := none
  selector : Option String := none
  value : Option String := none
  url : Option String := none
  timeout : Option Int := none
  multiple : Option Bool := none
  retries : Option Int := none
  deriving DecidableEq, Repr

/-- The filter options dictionary (`price_max`, `price_min`, `sort` are the
keys the pipeline reads). -/
structure Filters where
  price_max : Option ℚ := none
  price_min : Option ℚ := none
  sort : Option String := none
  deriving DecidableEq, Repr

/-- `ParsedInstruction` from parser.py. -/
structure ParsedInstruction where
  task : String
  query : String
  filters : Filters
  count : Int
  fields : List String
  target_url : Option String
  selectors : List (String × String)
  actions : List ActionD
  raw_instruction : String
  deriving DecidableEq, Repr

/-- `InstructionParser._get_default_selectors` (`dict.get(task, search)`
modeled as chained comparison). -/
def get_default_selectors (task : String) : List (String × String) :=
  if task = "search" then
    [("search_box", "input[name=\"q\"], input[name=\"search\"], input[type=\"search\"]"),
     ("search_button", "button[type=\"submit\"], input[type=\"submit\"], .search-button"),
     ("results", ".result, .search-result, .product-item, .item"),
     ("title", "h1, h2, h3, .title, .name"),
     ("price", ".price, .cost, [class*=\"price\"]"),
     ("link", "a, .link")]
  else if task = "navigate" then
    [("page_content", "body, main, .content"),
     ("navigation", "nav, .nav, .menu")]
  else if task = "extract" then
    [("content", "body, main, .content, .article"),
     ("title", "h1, .title, .headline"),
     ("text", "p, .text, .description")]
  else
    [("search_box", "input[name=\"q\"], input[name=\"search\"], input[type=\"search\"]"),
     ("search_button", "button[type=\"submit\"], input[type=\"submit\"], .search-button"),
     ("results", ".result, .search-result, .product-item, .item"),
     ("title", "h1, h2, h3, .title, .name"),
     ("price", ".price, .cost, [class*=\"price\"]"),
     ("link", "a, .link")]

/-- `InstructionParser._get_default_actions`: task-specific default action
sequences (empty for `fill_form`, `click`, `screenshot`). -/
def get_default_actions (parsed : ParsedInstruction) : List ActionD :=
  if parsed.task = "search" then
    [{ action := some "goto", url := parsed.target_url },
     { action := some "fill", selector := some "input[name=\"q\"]", value := some parsed.query },
     { action := some "click", selector := some "button[type=\"submit\"]" },
     { action := some "wait", timeout := some 3 },
     { action := some "extract", selector := some ".result", multiple := some true }]
  else if parsed.task = "navigate" then
    [{ action := some "goto", url := parsed.target_url },
     { action := some "wait", timeout := some 2 }]
  else if parsed.task = "extract" then
    [{ action := some "goto", url := parsed.target_url },
     { action := some "wait", timeout := some 2 },
     { action := some "extract", selector := some "body", multiple := some false }]
  else []

/-- `InstructionParser._get_default_url`. -/
def get_default_url (task : String) : String :=
  if task = "search" then "https://www.google.com"
  else if task = "navigate" then "https://www.example.com"
  else if task = "extract" then "https://www.example.com"
  else if task = "fill_form" then "https://www.example.com/contact"
  else if task = "click" then "https://www.example.com"
  else if task = "screenshot" then "https://www.example.com"
  else "https://www.google.com"

/-- `InstructionParser._validate_and_enhance`: the in-place defaulting pass,
as a sequence of functional updates in source order (in particular the
default actions are computed before the target URL is defaulted). -/
def validate_and_enhance (parsed : ParsedInstruction) : ParsedInstruction :=
  let parsed := if parsed.task.isEmpty then { parsed with task := "search" } else parsed
  let parsed := if parsed.query.isEmpty then { parsed with query := parsed.raw_instruction } else parsed
  let parsed := if parsed.selectors.isEmpty then
      { parsed with selectors := get_default_selectors parsed.task } else parsed
  let parsed := if parsed.actions.isEmpty then
      { parsed with actions := get_default_actions parsed } else parsed
  let parsed := if !truthyOptS parsed.target_url then
      { parsed with target_url := some (get_default_url parsed.task) } else parsed
  parsed

/-- `instruction.lower()` with substring test, for the fallback keyword
classifier. -/
def pyContains (needle : String) (hay_lower : Str) : Bool :=
  subStrB needle.data hay_lower

/-- `InstructionParser._create_fallback_instruction`: keyword-based task
classification plus the same defaulting logic as the success path (note the
inner `ParsedInstruction` passed to `_get_default_actions` has
`target_url=None`, so the fallback `goto` action carries no URL). -/
def create_fallback_instruction (instruction : String) : ParsedInstruction :=
  let lower := instruction.data.map Char.toLower
  let task :=
    if pyContains "search" lower then "search"
    else if pyContains "navigate" lower || pyContains "go to" lower then "navigate"
    else if pyContains "extract" lower || pyContains "get" lower then "extract"
    else if pyContains "fill" lower || pyContains "form" lower then "fill_form"
    else "search"
  { task := task
    query := instruction
    filters := {}
    count := 5
    fields := ["title", "url"]
    target_url := some (get_default_url task)
    selectors := get_default_selectors task
    actions := get_default_actions
      { task := task, query := instruction, filters := {}, count := 5,
        fields := ["title", "url"], target_url := none, selectors := [],
        actions := [], raw_instruction := instruction }
    raw_instruction := instruction }

/-- The decoded JSON object `plan_data` (each key optional, read with
`dict.get`). -/
structure PlanData where
  task : Option String := none
  query : Option String := none
  filters : Option Filters := none
  count : Option Int := none
  fields : Option (List String) := none
  target_url : Option String := none
  selectors : Option (List (String × String)) := none
  actions : Option (List ActionD) := none
  deriving DecidableEq, Repr

/-- `InstructionParser.parse`: the language-model call and JSON decoding are
abstracted into `llm : Option PlanData` — `some pd` is a successful
generate-and-decode producing `pd`, `none` is any internal failure (model
unavailable, JSON unparsable), which takes the fallback path.  The function
is total: no exception escapes. -/
def parse (instruction : String) (llm : Option PlanData) : ParsedInstruction :=
  match llm with
  | some pd =>
    validate_and_enhance
      { task := pd.task.getD "search"
        query := pd.query.getD instruction
        filters := pd.filters.getD {}
        count := pd.count.getD 5
        fields := pd.fields.getD ["title", "url"]
        target_url := pd.target_url
        selectors := pd.selectors.getD []
        actions := pd.actions.getD []
        raw_instruction := instruction }
  | none => create_fallback_instruction instruction

/-- A metadata value (string, integer or boolean entries occur). -/
inductive MVal where
  | s (v : String)
  | i (v : Int)
  | b (v : Bool)
  deriving DecidableEq, Repr

/-- `dict.update`: entries of `new` replace same-key entries of `old`. -/
def mupdate (old new : List (String × MVal)) : List (String × MVal) :=
  old.filter (fun kv => !(new.any (fun kv2 => kv2.1 == kv.1))) ++ new

/-- `Step` from planner.py (dataclass defaults included). -/
structure Step where
  action : String
  selector : Option String := none
  value : Option String := none
  url : Option String := none
  timeout : Int := 10
  multiple : Bool := false
  retries : Int := 3
  metadata : List (String × MVal) := []
  deriving DecidableEq, Repr

/-- One entry of a step template (`action` always present; `timeout` and
`multiple` read with `.get` defaults 10 / False; no template carries
`retries`). -/
structure TemplateStep where
  action : String
  timeout : Int := 10
  multiple : Bool := false
  deriving DecidableEq, Repr

/-- `StepPlanner._load_step_templates` combined with the
`step_templates.get(task, step_templates['search'])` lookup of
`_generate_steps_from_template`. -/
def step_templates_get (task : String) : List TemplateStep :=
  if task = "search" then
    [{ action := "goto", timeout := 15 },
     { action := "wait", timeout := 2 },
     { action := "fill", timeout := 10 },
     { action := "click", timeout := 10 },
     { action := "wait", timeout := 5 },
     { action := "extract", timeout := 10, multiple := true }]
  else if task = "navigate" then
    [{ action := "goto", timeout := 15 },
     { action := "wait", timeout := 3 }]
  else if task = "extract" then
    [{ action := "goto", timeout := 15 },
     { action := "wait", timeout := 3 },
     { action := "extract", timeout := 10, multiple := true }]
  else if task = "fill_form" then
    [{ action := "goto", timeout := 15 },
     { action := "wait", timeout := 2 },
     { action := "fill", timeout := 10 },
     { action := "click", timeout := 10 }]
  else if task = "click" then
    [{ action := "goto", timeout := 15 },
     { action := "wait", timeout := 2 },
     { action := "click", timeout := 10 }]
  else if task = "screenshot" then
    [{ action := "goto", timeout := 15 },
     { action := "wait", timeout := 3 },
     { action := "screenshot", timeout := 5 }]
  else
    [{ action := "goto", timeout := 15 },
     { action := "wait", timeout := 2 },
     { action := "fill", timeout := 10 },
     { action := "click", timeout := 10 },
     { action := "wait", timeout := 5 },
     { action := "extract", timeout := 10, multiple := true }]

/-- `StepPlanner._convert_actions_to_steps`. -/
def convert_actions_to_steps (actions : List ActionD) : List Step :=
  actions.map fun a =>
    { action := a.action.getD "goto"
      selector := a.selector
      value := a.value
      url := a.url
      timeout := a.timeout.getD 10
      multiple := a.multiple.getD false
      retries := a.retries.getD 3
      metadata := [] }

/-- `StepPlanner._generate_steps_from_template`. -/
def generate_steps_from_template (parsed_instruction : ParsedInstruction) : List Step :=
  (step_templates_get parsed_instruction.task).map fun t =>
    { action := t.action
      timeout := t.timeout
      multiple := t.multiple
      retries := 3 }

/-- `StepPlanner._get_selector`: the intent's selector map, then the fixed
fallback table, then `'body'`. -/
def get_selector (parsed_instruction : ParsedInstruction) (selector_type : String) : String :=
  match parsed_instruction.selectors.lookup selector_type with
  | some v => v
  | none =>
    if selector_type = "search_box" then
      "input[name=\"q\"], input[type=\"search\"], input[placeholder*=\"search\"]"
    else if selector_type = "search_button" then
      "button[type=\"submit\"], input[type=\"submit\"], .search-button"
    else if selector_type = "results" then
      ".result, .search-result, .product-item, .item"
    else if selector_type = "title" then "h1, h2, h3, .title, .name"
    else if selector_type = "price" then ".price, .cost, [class*=\"price\"]"
    else if selector_type = "link" then "a, .link"
    else "body"

/-- The loop body of `StepPlanner._enhance_steps` for the step at index
`i`, as a sequence of functional updates in source order. -/
def enhance_step (parsed_instruction : ParsedInstruction) (i : Nat) (step : Step) : Step :=
  let step := if step.action = "goto" && !truthyOptS step.url then
      { step with url := parsed_instruction.target_url } else step
  let step := if step.action = "fill" then
      { step with selector := some (get_selector parsed_instruction "search_box"),
                  value := some parsed_instruction.query } else step
  let step := if step.action = "click" then
      { step with selector := some (get_selector parsed_instruction "search_button") } else step
  let step := if step.action = "extract" then
      { step with selector := some (get_selector parsed_instruction "results"),
                  multiple := true } else step
  { step with metadata := mupdate step.metadata (
      [("task", MVal.s parsed_instruction.task),
       ("query", MVal.s parsed_instruction.query),
       ("step_number", MVal.i (i + 1))]) }

/-- `StepPlanner._enhance_steps`. -/
def enhance_steps (steps : List Step) (parsed_instruction : ParsedInstruction) : List Step :=
  steps.mapIdx (enhance_step parsed_instruction)

/-- The stabilization wait step appended after `click`/`fill` by
`StepPlanner._add_error_handling`. -/
def waitAfterStep : Step :=
  { action := "wait", timeout := 2, metadata := [("purpose", .s "wait_after_action")] }

/-- The two in-place mutations `_add_error_handling` applies to one step:
raise retries to ≥ 3 on `click`/`fill`/`extract`, raise timeout to ≥ 15 on
`goto`. -/
def harden_step (step : Step) : Step :=
  let step := if step.action = "click" ∨ step.action = "fill" ∨ step.action = "extract" then
      { step with retries := max step.retries 3 } else step
  if step.action = "goto" then { step with timeout := max step.timeout 15 } else step

/-- `StepPlanner._add_error_handling`: harden each step and append a wait
step after every `click`/`fill`. -/
def add_error_handling : List Step → List Step
  | [] => []
  | step :: rest =>
    let step := harden_step step
    if step.action = "click" ∨ step.action = "fill" then
      step :: waitAfterStep :: add_error_handling rest
    else
      step :: add_error_handling rest

/-- `StepPlanner.plan` (the `except` branch producing `_create_fallback_steps`
is unreachable in this embedding: the body is total). -/
def plan (parsed_instruction : ParsedInstruction) : List Step :=
  let steps :=
    if !parsed_instruction.actions.isEmpty then
      convert_actions_to_steps parsed_instruction.actions
    else
      generate_steps_from_template parsed_instruction
  let steps := enhance_steps steps parsed_instruction
  add_error_handling steps

def c3pi : ParsedInstruction :=
  { task := "navigate", query := "q", filters := {}, count := 5, fields := [],
    target_url := some "https://x", selectors := [], actions := [],
    raw_instruction := "r" }

/-- `ActionResult` from browser_controller.py as consumed by the
orchestrator: a success flag and an optional extracted payload (a payload is
truthy exactly when the fragment list is non-empty; a single fragment is a
one-element list). -/
structure ActionResult (δ : Type) where
  success : Bool
  data : List δ := []
  error : Option String := none

/-- `Orchestrator._execute_steps`: the per-step outcome (after the retry
loop of `_execute_step_with_retry`) is supplied alongside each step;
`ext` abstracts `_extract_data_from_step_result` (whose record output joins
the running result list).  Returns the accumulated raw records and the
number of steps attempted: a failed step aborts the remaining plan exactly
when its action is `goto` or `click`. -/
def execute_steps {δ ρ : Type} (ext : ActionResult δ → List ρ) :
    List (Step × ActionResult δ) → List ρ × Nat
  | [] => ([], 0)
  | (step, res) :: rest =>
    if res.success then
      let here := if step.action = "extract" ∧ res.data.isEmpty = false then ext res else []
      let r := execute_steps ext rest
      (here ++ r.1, r.2 + 1)
    else if step.action = "goto" ∨ step.action = "click" then ([], 1)
    else
      let r := execute_steps ext rest
      (r.1, r.2 + 1)

/-- The fields of `ExecutionResult` that the status claims concern. -/
structure ExecutionResultM (ρ : Type) where
  status : String
  results : List ρ
  error_message : Option String := none

/-- `Orchestrator.execute`: `exc` abstracts an exception escaping to the
top-level handler (`some msg` takes the `except` branch), `process`
abstracts `_process_results`.  The status is `"success" if results else
"error"`, computed from the RAW accumulated records, before
`_process_results` builds the final record list. -/
def executeM {δ ρ : Type} (exc : Option String)
    (l : List (Step × ActionResult δ)) (ext : ActionResult δ → List ρ)
    (process : List ρ → List ρ) : ExecutionResultM ρ :=
  match exc with
  | some e => { status := "error", results := [], error_message := some e }
  | none =>
    let results := (execute_steps ext l).1
    { status := if !results.isEmpty then "success" else "error"
      results := process results }

def c1goto : Step := { action := "goto", url := some "https://x", timeout := 15 }

def c1wait : Step := { action := "wait", timeout := 3 }

def okResult : ActionResult Unit := { success := true }

def c4fill : Step := { action := "fill", selector := some "input", timeout := 10 }

def failResult : ActionResult Unit := { success := false, error := some "boom" }

/-- `MemoryEntry` (the result payload type is a parameter). -/
structure MemoryEntry (ρ : Type) where
  id : String
  instruction : String
  result : ρ
  timestamp : Int
  task_type : String
  success : Bool

/-- The aggregate counters of `SessionContext` touched by `add_memory`. -/
structure SessionContextM where
  total_tasks : Int
  successful_tasks : Int
  failed_tasks : Int
  last_activity : Int

/-- `SessionMemory.max_memories`. -/
def max_memories : Nat := 100

/-- `SessionMemory.memory_ttl_days`. -/
def memory_ttl_days : Int := 7

instance {ρ : Type} :
    DecidableRel (fun (a b : MemoryEntry ρ) => b.timestamp ≤ a.timestamp) :=
  fun _ _ => Int.decLe _ _

instance {ρ : Type} :
    IsTotal (MemoryEntry ρ) (fun a b => b.timestamp ≤ a.timestamp) :=
  ⟨fun _ _ => le_total _ _⟩

instance {ρ : Type} :
    IsTrans (MemoryEntry ρ) (fun a b => b.timestamp ≤ a.timestamp) :=
  ⟨fun _ _ _ h1 h2 => le_trans h2 h1⟩

/-- The first retention step of `SessionMemory._cleanup_old_memories`:
`[mem for mem in self.memories if mem.timestamp > cutoff_date]` with
`cutoff_date = now - ttl`. -/
def ttl_filtered {ρ : Type} (now : Int) (memories : List (MemoryEntry ρ)) :
    List (MemoryEntry ρ) :=
  memories.filter (fun m => decide (now - memory_ttl_days < m.timestamp))

/-- `SessionMemory._cleanup_old_memories`: drop entries at or beyond the
time-to-live, then if still above the maximum keep the most recent entries
by timestamp (`sorted(..., reverse=True)[:max]`, a stable descending
sort). -/
def cleanup_old_memories {ρ : Type} (now : Int) (memories : List (MemoryEntry ρ)) :
    List (MemoryEntry ρ) :=
  if max_memories < (ttl_filtered now memories).length then
    ((ttl_filtered now memories).insertionSort
      (fun a b => b.timestamp ≤ a.timestamp)).take max_memories
  else ttl_filtered now memories

/-- The `MemoryEntry` built by `add_memory` for the current insert
(`timestamp=datetime.now()`, `id=uuid`). -/
def mk_memory_entry {ρ : Type} (now : Int) (new_id : String) (instruction : String)
    (result : ρ) (success : Bool) (task_type : String) : MemoryEntry ρ :=
  { id := new_id, instruction := instruction, result := result,
    timestamp := now, task_type := task_type, success := success }

/-- `SessionMemory.add_memory`: append the new entry, update the aggregate
counters, then run the retention policy (both steps run on every insert;
`_save_to_disk` is I/O outside this model). -/
def add_memory {ρ : Type} (now : Int) (new_id : String) (instruction : String)
    (result : ρ) (success : Bool) (task_type : String)
    (memories : List (MemoryEntry ρ)) (ctx : SessionContextM) :
    String × List (MemoryEntry ρ) × SessionContextM :=
  let entry : MemoryEntry ρ :=
    mk_memory_entry now new_id instruction result success task_type
  let memories := memories ++ [entry]
  let ctx : SessionContextM :=
    { total_tasks := ctx.total_tasks + 1
      successful_tasks := if success then ctx.successful_tasks + 1 else ctx.successful_tasks
      failed_tasks := if success then ctx.failed_tasks else ctx.failed_tasks + 1
      last_activity := now }
  (new_id, cleanup_old_memories now memories, ctx)

/-! ### Claim theorems and supporting lemmas -/

theorem dedupGo_idem (kf : List String) :
    ∀ (l : List ExtractedData) (seen : List Str),
      dedupGo kf seen (dedupGo kf seen l) = dedupGo kf seen l := by
  intro l
  induction l with
  | nil => intro seen; rfl
  | cons item rest ih =>
    intro seen
    rw [dedupGo]
    by_cases h : seen.contains (dedupKey kf item) = true
    · rw [if_pos h, ih seen]
    · rw [if_neg h, dedupGo, if_neg h, ih]

/-- C5: deduplication is idempotent — for every record list and every choice of key fields, applying `deduplicate` to an already-deduplicated list yields the same list. -/
theorem c5_dedup_idem (data : List ExtractedData) (key_fields : List String) :
    deduplicate (deduplicate data key_fields) key_fields = deduplicate data key_fields := by
  unfold deduplicate
  exact dedupGo_idem _ data []

/-- C6 counterexample: a max-price bound of 0 is falsy in Python, so `filter_by_price` returns the list unchanged; with bounds 10 ≥ 0 the tighter bound 0 keeps a record with no price that the looser bound 10 drops, refuting monotonicity as stated. -/
theorem c6_cex :
    (0 : ℚ) ≤ 10 ∧
      (filter_by_price [c6rec] (some 10) none).length
        < (filter_by_price [c6rec] (some 0) none).length := by
  constructor
  · norm_num
  · decide

theorem price_pred_mono (m1 m2 : ℚ) (h2 : 0 < m2) (h12 : m2 ≤ m1)
    (a : ExtractedData) (h : price_pred (some m2) none a = true) :
    price_pred (some m1) none a = true := by
  unfold price_pred at h ⊢
  cases hv : price_value_of a with
  | none => rw [hv] at h; exact absurd h (by simp)
  | some v =>
    rw [hv] at h
    simp only [truthyQ, Option.getD_some, Bool.false_and, Bool.not_false, Bool.and_true,
      Bool.not_eq_true', Bool.and_eq_false_iff, Bool.not_eq_false', beq_iff_eq,
      decide_eq_false_iff_not, not_lt] at h ⊢
    rcases h with h | h
    · exact absurd h h2.ne'
    · exact Or.inr (le_trans h h12)

/-- C6 (amended): price filtering is monotonic for positive max-price bounds — for 0 < m2 ≤ m1 the tighter bound m2 never yields more records than m1 — and whenever some bound is truthy (active), every surviving record has a parsable price. -/
theorem c6_amended (data : List ExtractedData) (m1 m2 : ℚ)
    (h2 : 0 < m2) (h12 : m2 ≤ m1) :
    ((filter_by_price data (some m2) none).length
      ≤ (filter_by_price data (some m1) none).length)
  ∧ (∀ (maxp minp : Option ℚ), (truthyQ maxp || truthyQ minp) = true →
      ∀ item ∈ filter_by_price data maxp minp, (price_value_of item).isSome = true) := by
  constructor
  · have ht2 : truthyQ (some m2) = true := by simp [truthyQ, h2.ne']
    have ht1 : truthyQ (some m1) = true := by
      simp [truthyQ, (lt_of_lt_of_le h2 h12).ne']
    rw [filter_by_price, filter_by_price, if_neg (by simp [ht2]), if_neg (by simp [ht1])]
    exact List.Sublist.length_le
      (List.monotone_filter_right data (price_pred_mono m1 m2 h2 h12))
  · intro maxp minp htr item hmem
    have hcond : ¬((!truthyQ maxp && !truthyQ minp) = true) := by
      intro hc
      rcases Bool.or_eq_true _ _ |>.mp htr with h | h <;>
        simp [h] at hc
    rw [filter_by_price, if_neg hcond] at hmem
    rw [List.mem_filter] at hmem
    have hp := hmem.2
    unfold price_pred at hp
    cases hv : price_value_of item with
    | none => rw [hv] at hp; simp at hp
    | some v => simp

/-- C6 witness: the amended theorem at a concrete record and bounds 1 ≤ 2. -/
theorem c6_amended_witness :
    (filter_by_price [c6wrec] (some 1) none).length
      ≤ (filter_by_price [c6wrec] (some 2) none).length :=
  (c6_amended [c6wrec] 2 1 (by norm_num) (by norm_num)).1

/-- C7 counterexample: in the default ascending mode `sort_by_price` keys an absent price as 0.0, not +infinity, so the price-less record sorts to the front, not the end as claimed. -/
theorem c7_cex :
    sort_by_price [c7p10, c7noprice] false = [c7noprice, c7p10] ∧
      sort_by_price [c7p10, c7noprice] false ≠ [c7p10, c7noprice] := by
  constructor
  · decide
  · decide

/-- C7 (amended): `sort_by_price` stably sorts by the numeric value of the first numeric token of the price string; an absent or unparsable price is keyed 0 in ascending mode and +infinity in descending mode, so such records appear at the beginning in both modes, never sinking to the end. -/
theorem c7_amended (data : List ExtractedData) (reverse : Bool) :
    ((sort_by_price data reverse).Perm data)
  ∧ ((sort_by_price data false).Pairwise
      fun a b => get_price_value false a ≤ get_price_value false b)
  ∧ ((sort_by_price data true).Pairwise
      fun a b => get_price_value true b ≤ get_price_value true a)
  ∧ (∀ item, price_value_of item = none →
      get_price_value false item = 0 ∧ get_price_value true item = ⊤)
  ∧ (∀ item v, price_value_of item = some v →
      get_price_value reverse item = (v : WithTop ℚ)) := by
  refine ⟨?_, ?_, ?_, ?_, ?_⟩
  · unfold sort_by_price
    cases reverse <;> simp <;> exact List.perm_insertionSort _ _
  · unfold sort_by_price
    simp only [if_neg Bool.false_ne_true]
    exact List.sorted_insertionSort _ _
  · unfold sort_by_price
    simp only [if_pos rfl]
    exact List.sorted_insertionSort _ _
  · intro item h
    unfold get_price_value
    rw [h]
    exact ⟨rfl, rfl⟩
  · intro item v h
    unfold get_price_value
    rw [h]

/-- C7 witness: the amended theorem applied at concrete records. -/
theorem c7_amended_witness :
    get_price_value false c7noprice = 0 ∧ get_price_value true c7noprice = ⊤ :=
  (c7_amended [c7p10] false).2.2.2.1 c7noprice (by decide)

/-- C9: `_normalize_url` resolves a root-relative URL (one leading `/`) against the hard-coded host `https://example.com`, prefixes a protocol-relative URL (leading `//`) with `https:`, and prefixes any other URL lacking an `http://`/`https://` scheme with `https://`; the originating page host is never used (it is not even an input). -/
theorem c9_normalize_url (url : Str) :
    (("/".data.isPrefixOf url = true ∧ "//".data.isPrefixOf url = false) →
      normalize_url url = "https://example.com".data ++ url)
  ∧ ("//".data.isPrefixOf url = true → normalize_url url = "https:".data ++ url)
  ∧ ((url ≠ [] ∧ "http://".data.isPrefixOf url = false ∧
      "https://".data.isPrefixOf url = false ∧ "/".data.isPrefixOf url = false) →
      normalize_url url = "https://".data ++ url) := by
  refine ⟨?_, ?_, ?_⟩
  · rintro ⟨h1, h2⟩
    match url with
    | [] => simp [List.isPrefixOf] at h1
    | c :: t =>
      have hc : c = '/' := by
        simp [List.isPrefixOf] at h1
        exact h1.symm
      subst hc
      match t with
      | [] => simp [normalize_url, List.isPrefixOf, List.isEmpty]
      | c2 :: t2 =>
        have hc2 : c2 ≠ '/' := by
          intro h
          subst h
          simp [List.isPrefixOf] at h2
        simp [normalize_url, List.isPrefixOf, List.isEmpty, Ne.symm hc2]
  · intro h
    match url with
    | [] => simp [List.isPrefixOf] at h
    | [c] => simp [List.isPrefixOf] at h
    | c :: c2 :: t =>
      simp [List.isPrefixOf] at h
      obtain ⟨hc, hc2⟩ := h
      subst hc; subst hc2
      simp [normalize_url, List.isPrefixOf, List.isEmpty]
  · rintro ⟨h0, h1, h2, h3⟩
    match url with
    | [] => exact absurd rfl h0
    | c :: t =>
      have hc : c ≠ '/' := by
        intro h
        subst h
        simp [List.isPrefixOf] at h3
      rw [normalize_url, if_neg (by simp [List.isEmpty]), if_neg (by simp [h1, h2]),
        if_neg (by simp [List.isPrefixOf, Ne.symm hc]),
        if_neg (by simp [List.isPrefixOf, Ne.symm hc])]

/-- C9 witness: the root-relative branch at the concrete URL `/a`. -/
theorem c9_normalize_url_witness :
    normalize_url "/a".data = "https://example.com".data ++ "/a".data :=
  (c9_normalize_url "/a".data).1 ⟨by decide, by decide⟩

theorem commaGroups_chars (cs : Str) :
    ∀ c ∈ (commaGroups cs).1, c = ',' ∨ c.isDigit = true := by
  induction cs using commaGroups.induct with
  | case1 a b c rest hd m r heq ih =>
    rw [commaGroups, if_pos hd]
    intro e he
    simp only [heq, List.mem_cons] at he
    simp only [Bool.and_eq_true] at hd
    rcases he with rfl | rfl | rfl | rfl | he
    · exact Or.inl rfl
    · exact Or.inr hd.1.1
    · exact Or.inr hd.1.2
    · exact Or.inr hd.2
    · exact ih e (by rw [heq]; exact he)
  | case2 a b c rest hd =>
    rw [commaGroups, if_neg hd]
    intro e he
    simp at he
  | case3 cs h =>
    intro e he
    rw [commaGroups.eq_def] at he
    split at he
    · exact absurd (h _ _ _ _ rfl) (by simp)
    · simp at he

theorem fracPart_chars (cs : Str) :
    ∀ c ∈ (fracPart cs).1, c = '.' ∨ c.isDigit = true := by
  intro e he
  rw [fracPart.eq_def] at he
  split at he
  · split at he
    · simp at he
      rcases he with rfl | rfl | rfl
      · exact Or.inl rfl
      · next a b rest h => simp at h; exact Or.inr h.1
      · next a b rest h => simp at h; exact Or.inr h.2
    · simp at he
  · simp at he

theorem numToken_chars (cs tok rest : Str) (h : numToken cs = some (tok, rest)) :
    ∀ c ∈ tok, c.isDigit = true ∨ c = ',' ∨ c = '.' := by
  intro e he
  rw [numToken.eq_def] at h
  split at h
  · split at h
    · dsimp only at h
      simp only [Option.some_inj, Prod.mk.injEq] at h
      obtain ⟨htok, -⟩ := h
      rw [← htok] at he
      simp only [List.mem_append] at he
      rcases he with (he | he) | he
      · exact Or.inl (List.mem_takeWhile_imp he)
      · rcases commaGroups_chars _ e he with rfl | h2
        · exact Or.inr (Or.inl rfl)
        · exact Or.inl h2
      · rcases fracPart_chars _ e he with rfl | h2
        · exact Or.inr (Or.inr rfl)
        · exact Or.inl h2
    · exact absurd h (by simp)
  · exact absurd h (by simp)

theorem searchPat_exists (m : Str → Option Str) (text : Str) (g : Str)
    (h : searchPat m text = some g) : ∃ cs, m cs = some g := by
  induction text with
  | nil => exact ⟨[], h⟩
  | cons c rest ih =>
    rw [searchPat] at h
    cases hm : m (c :: rest) with
    | some g2 => rw [hm] at h; exact ⟨c :: rest, hm.trans h⟩
    | none => rw [hm] at h; exact ih h

theorem matchP1_from_numToken (cs g : Str) (h : matchP1 cs = some g) :
    ∃ cs2 r, numToken cs2 = some (g, r) := by
  rw [matchP1.eq_def] at h
  split at h
  · rcases Option.map_eq_some'.mp h with ⟨⟨tok, r⟩, hn, htok⟩
    obtain rfl : tok = g := htok
    exact ⟨_, r, hn⟩
  · exact absurd h (by simp)

theorem matchP2_from_numToken (cs g : Str) (h : matchP2 cs = some g) :
    ∃ cs2 r, numToken cs2 = some (g, r) := by
  rw [matchP2.eq_def] at h
  split at h
  · split at h
    · rcases Option.map_eq_some'.mp h with ⟨⟨tok, r⟩, hn, htok⟩
      obtain rfl : tok = g := htok
      exact ⟨_, r, hn⟩
    · exact absurd h (by simp)
  · exact absurd h (by simp)

theorem matchP3_from_numToken (cs g : Str) (h : matchP3 cs = some g) :
    ∃ cs2 r, numToken cs2 = some (g, r) := by
  rw [matchP3.eq_def] at h
  split at h
  · split at h
    · rcases Option.map_eq_some'.mp h with ⟨⟨tok, r⟩, hn, htok⟩
      obtain rfl : tok = g := htok
      exact ⟨_, r, hn⟩
    · exact absurd h (by simp)
  · exact absurd h (by simp)

theorem matchP4_from_numToken (cs g : Str) (h : matchP4 cs = some g) :
    ∃ cs2 r, numToken cs2 = some (g, r) := by
  rw [matchP4] at h
  split at h
  next tok rest hn =>
    split at h
    · split at h
      · injection h with h2
        exact ⟨cs, rest, by rw [hn, h2]⟩
      · exact absurd h (by simp)
    · exact absurd h (by simp)
  next => exact absurd h (by simp)

theorem matchP5_from_numToken (cs g : Str) (h : matchP5 cs = some g) :
    ∃ cs2 r, numToken cs2 = some (g, r) := by
  rw [matchP5] at h
  split at h
  next tok rest hn =>
    split at h
    · injection h with h2
      exact ⟨cs, rest, by rw [hn, h2]⟩
    · exact absurd h (by simp)
  next => exact absurd h (by simp)

theorem priceSearch_chars (text g : Str) (h : priceSearch text = some g) :
    ∀ c ∈ g, c.isDigit = true ∨ c = ',' ∨ c = '.' := by
  rw [priceSearch] at h
  have step : ∀ (mm : Str → Option Str),
      (∀ cs gg, mm cs = some gg → ∃ cs2 r, numToken cs2 = some (gg, r)) →
      searchPat mm text = some g →
      ∀ c ∈ g, c.isDigit = true ∨ c = ',' ∨ c = '.' := by
    intro mm hmm hs
    obtain ⟨cs, hcs⟩ := searchPat_exists mm text g hs
    obtain ⟨cs2, r, hn⟩ := hmm cs g hcs
    exact numToken_chars cs2 g r hn
  cases h1 : searchPat matchP1 text with
  | some g1 => rw [h1] at h; cases h; exact step matchP1 matchP1_from_numToken h1
  | none =>
    rw [h1] at h
    cases h2 : searchPat matchP2 text with
    | some g2 => rw [h2] at h; cases h; exact step matchP2 matchP2_from_numToken h2
    | none =>
      rw [h2] at h
      cases h3 : searchPat matchP3 text with
      | some g3 => rw [h3] at h; cases h; exact step matchP3 matchP3_from_numToken h3
      | none =>
        rw [h3] at h
        cases h4 : searchPat matchP4 text with
        | some g4 => rw [h4] at h; cases h; exact step matchP4 matchP4_from_numToken h4
        | none =>
          rw [h4] at h
          exact step matchP5 matchP5_from_numToken h

theorem isPrefixOf_mem : ∀ (p l : Str), p.isPrefixOf l = true → ∀ c ∈ p, c ∈ l := by
  intro p
  induction p with
  | nil => intro l _ c hc; simp at hc
  | cons a as ih =>
    intro l h c hc
    match l, h with
    | b :: bs, h =>
      simp only [List.isPrefixOf, Bool.and_eq_true, beq_iff_eq] at h
      obtain ⟨rfl, h2⟩ := h
      rcases List.mem_cons.mp hc with rfl | hc
      · exact List.mem_cons_self _ _
      · exact List.mem_cons_of_mem _ (ih bs h2 c hc)

theorem subStrB_mem (p : Str) : ∀ (l : Str), subStrB p l = true → ∀ c ∈ p, c ∈ l := by
  intro l
  induction l with
  | nil =>
    intro h c hc
    rw [subStrB] at h
    rw [List.isEmpty_iff.mp h] at hc
    simp at hc
  | cons b bs ih =>
    intro h c hc
    rw [subStrB] at h
    rcases Bool.or_eq_true _ _ |>.mp h with h2 | h2
    · exact isPrefixOf_mem p (b :: bs) h2 c hc
    · exact List.mem_cons_of_mem _ (ih h2 c hc)

theorem charclass_no_marker (g : Str)
    (hg : ∀ c ∈ g, c.isDigit = true ∨ c = ',' ∨ c = '.') :
    containsCurrencyMarker g = false := by
  rw [containsCurrencyMarker]
  simp only [Bool.or_eq_false_iff]
  refine ⟨⟨?_, ?_⟩, ?_⟩
  · by_contra h
    have h2 := subStrB_mem _ g (Bool.of_not_eq_false h) '₹' (by decide)
    rcases hg _ h2 with h3 | h3 | h3 <;> simp at h3
  · by_contra h
    have h2 := subStrB_mem _ g (Bool.of_not_eq_false h) 'R' (by decide)
    rcases hg _ h2 with h3 | h3 | h3 <;> simp at h3
  · by_contra h
    have h2 := subStrB_mem _ g (Bool.of_not_eq_false h) 'I' (by decide)
    rcases hg _ h2 with h3 | h3 | h3 <;> simp at h3

/-- C10: whenever `_extract_price` returns a value it is exactly `₹` followed by the captured numeric token, whose characters are digits, commas and dots only — hence no source currency marker (`₹`, `Rs`, `INR`) is preserved, and the symbol check always prepends `₹`. -/
theorem c10_extract_price (text v : Str) (h : extract_price text = some v) :
    ∃ g, priceSearch text = some g ∧ v = '₹' :: g ∧
      (∀ c ∈ g, c.isDigit = true ∨ c = ',' ∨ c = '.') ∧
      containsCurrencyMarker g = false := by
  rw [extract_price] at h
  split at h
  · exact absurd h (by simp)
  · cases hs : priceSearch text with
    | none => rw [hs] at h; exact absurd h (by simp)
    | some g =>
      rw [hs] at h
      have hg := priceSearch_chars text g hs
      have hm := charclass_no_marker g hg
      dsimp only at h
      simp only [hm, Bool.not_false, if_true, Option.some_inj] at h
      exact ⟨g, rfl, h.symm, hg, hm⟩

/-- C10 witness: `extract_price` on "Rs 500" returns "₹500". -/
theorem c10_witness :
    ∃ g, priceSearch "Rs 500".data = some g ∧ "₹500".data = '₹' :: g ∧
      (∀ c ∈ g, c.isDigit = true ∨ c = ',' ∨ c = '.') ∧
      containsCurrencyMarker g = false :=
  c10_extract_price "Rs 500".data "₹500".data rfl

theorem get_default_selectors_ne (task : String) : get_default_selectors task ≠ [] := by
  unfold get_default_selectors
  split <;> try simp
  split <;> try simp
  split <;> simp

theorem get_default_actions_ne (p : ParsedInstruction)
    (h : p.task = "search" ∨ p.task = "navigate" ∨ p.task = "extract") :
    get_default_actions p ≠ [] := by
  unfold get_default_actions
  rcases h with h | h | h <;> simp [h]

theorem validate_and_enhance_selectors (p : ParsedInstruction) :
    (validate_and_enhance p).selectors ≠ [] := by
  simp only [validate_and_enhance]
  split_ifs <;> simp_all [List.isEmpty_iff, get_default_selectors_ne]

theorem validate_and_enhance_actions (p : ParsedInstruction)
    (h : (validate_and_enhance p).task = "search" ∨
      (validate_and_enhance p).task = "navigate" ∨
      (validate_and_enhance p).task = "extract") :
    (validate_and_enhance p).actions ≠ [] := by
  simp only [validate_and_enhance] at h ⊢
  split_ifs at h ⊢ <;> simp_all [List.isEmpty_iff] <;>
    (apply get_default_actions_ne; simp_all)

/-- C2 counterexample: with the language model failing, the fallback path classifies "fill the form" as `fill_form`, for which `_get_default_actions` returns an empty action list — refuting the claimed non-empty action list in every case. -/
theorem c2_cex :
    (parse "fill the form" none).task = "fill_form" ∧
      (parse "fill the form" none).actions = [] := by
  constructor
  · rfl
  · rfl

/-- C2 (amended): `parse` is total (on any internal failure it returns the fallback intent instead of throwing); the returned intent always has non-empty selectors; the fallback path task kind is always in {search, navigate, extract, fill_form}; and the action list is non-empty whenever the task kind is search, navigate or extract (for fill_form, click or screenshot with no model-supplied actions it is empty). -/
theorem c2_amended (instruction : String) (llm : Option PlanData) :
    ((parse instruction llm).selectors ≠ [])
  ∧ (llm = none →
      (parse instruction llm).task = "search" ∨ (parse instruction llm).task = "navigate" ∨
      (parse instruction llm).task = "extract" ∨ (parse instruction llm).task = "fill_form")
  ∧ (((parse instruction llm).task = "search" ∨ (parse instruction llm).task = "navigate" ∨
      (parse instruction llm).task = "extract") → (parse instruction llm).actions ≠ []) := by
  cases llm with
  | none =>
    simp only [parse, create_fallback_instruction]
    refine ⟨get_default_selectors_ne _, fun _ => ?_, fun h => ?_⟩
    · split_ifs <;> simp
    · exact get_default_actions_ne _ h
  | some pd =>
    simp only [parse]
    exact ⟨validate_and_enhance_selectors _, fun hn => by simp at hn,
      fun h => validate_and_enhance_actions _ h⟩

/-- C2 witness: a navigate instruction on the fallback path has a non-empty action list. -/
theorem c2_amended_witness :
    (parse "go to example" none).actions ≠ [] :=
  (c2_amended "go to example" none).2.2 (Or.inr (Or.inl (by rfl)))

theorem harden_step_props (step : Step) :
    (((harden_step step).action = "click" ∨ (harden_step step).action = "fill" ∨
        (harden_step step).action = "extract") → 3 ≤ (harden_step step).retries) ∧
      ((harden_step step).action = "goto" → 15 ≤ (harden_step step).timeout) := by
  obtain ⟨act, sel, val, url, tmo, mult, ret, md⟩ := step
  unfold harden_step
  dsimp only
  split_ifs with h1 h2 h3 <;> constructor <;> intro h <;> dsimp only at h ⊢ <;>
    first
      | exact le_max_right _ _
      | (rcases h with h | h | h <;> simp_all)

theorem waitAfterStep_props :
    ((waitAfterStep.action = "click" ∨ waitAfterStep.action = "fill" ∨
        waitAfterStep.action = "extract") → 3 ≤ waitAfterStep.retries) ∧
      (waitAfterStep.action = "goto" → 15 ≤ waitAfterStep.timeout) := by
  constructor <;> intro h <;> simp [waitAfterStep] at h

theorem add_error_handling_props (l : List Step) :
    ∀ s ∈ add_error_handling l,
      ((s.action = "click" ∨ s.action = "fill" ∨ s.action = "extract") → 3 ≤ s.retries) ∧
        (s.action = "goto" → 15 ≤ s.timeout) := by
  induction l with
  | nil => intro s hs; simp [add_error_handling] at hs
  | cons step rest ih =>
    intro s hs
    rw [add_error_handling] at hs
    split at hs
    · rcases List.mem_cons.mp hs with rfl | hs2
      · exact harden_step_props step
      · rcases List.mem_cons.mp hs2 with rfl | hs3
        · exact waitAfterStep_props
        · exact ih s hs3
    · rcases List.mem_cons.mp hs with rfl | hs2
      · exact harden_step_props step
      · exact ih s hs2

theorem add_error_handling_ne (l : List Step) (h : l ≠ []) :
    add_error_handling l ≠ [] := by
  match l, h with
  | step :: rest, _ =>
    rw [add_error_handling]
    split <;> simp

theorem step_templates_get_ne (task : String) : step_templates_get task ≠ [] := by
  unfold step_templates_get
  split_ifs <;> simp

theorem plan_steps_ne (pi : ParsedInstruction) :
    (if !pi.actions.isEmpty then convert_actions_to_steps pi.actions
      else generate_steps_from_template pi) ≠ [] := by
  split
  · next h =>
    intro hc
    rw [convert_actions_to_steps, List.map_eq_nil_iff] at hc
    rw [hc] at h
    simp at h
  · exact fun hc => step_templates_get_ne pi.task (by
      simpa [generate_steps_from_template] using congrArg List.length hc)

theorem enhance_steps_length (steps : List Step) (pi : ParsedInstruction) :
    (enhance_steps steps pi).length = steps.length := by
  simp [enhance_steps]

/-- C3: for every intent, `plan` returns a non-empty ordered step list in which every click/fill/extract step has a retry budget of at least 3 and every goto step has a timeout of at least 15. -/
theorem c3_plan (pi : ParsedInstruction) :
    plan pi ≠ [] ∧
      ∀ s ∈ plan pi,
        ((s.action = "click" ∨ s.action = "fill" ∨ s.action = "extract") → 3 ≤ s.retries) ∧
          (s.action = "goto" → 15 ≤ s.timeout) := by
  constructor
  · apply add_error_handling_ne
    intro hc
    have := congrArg List.length hc
    rw [enhance_steps_length] at this
    exact plan_steps_ne pi (by
      cases hif : (if !pi.actions.isEmpty then convert_actions_to_steps pi.actions
          else generate_steps_from_template pi) with
      | nil => rfl
      | cons a l => rw [hif] at this; simp at this)
  · intro s hs
    exact add_error_handling_props _ s hs

/-- C3 witness: the plan of a concrete navigate intent is non-empty and its leading goto step has timeout ≥ 15. -/
theorem c3_plan_witness :
    plan c3pi ≠ [] ∧ 15 ≤ ((plan c3pi).headD { action := "x" }).timeout :=
  ⟨(c3_plan c3pi).1,
    ((c3_plan c3pi).2 ((plan c3pi).headD { action := "x" }) (by decide)).2 (by decide)⟩

theorem execute_steps_no_extract {δ ρ : Type} (ext : ActionResult δ → List ρ)
    (l : List (Step × ActionResult δ)) (h : ∀ x ∈ l, x.1.action ≠ "extract") :
    (execute_steps ext l).1 = [] := by
  induction l with
  | nil => rfl
  | cons sr rest ih =>
    obtain ⟨step, res⟩ := sr
    rw [execute_steps]
    have hs : step.action ≠ "extract" := h (step, res) (List.mem_cons_self _ _)
    split
    · dsimp only
      rw [if_neg (fun hc => hs hc.1), ih (fun x hx => h x (List.mem_cons_of_mem _ hx))]
      rfl
    · split
      · rfl
      · dsimp only
        rw [ih (fun x hx => h x (List.mem_cons_of_mem _ hx))]

/-- C1 (amended): the status is "success" iff the raw accumulated record list (before the `_process_results` pass) is non-empty; a top-level exception yields "error"; a plan with no extraction steps yields "error" even when every step succeeds; no status other than "success"/"error" — in particular never "partial" — is emitted. -/
theorem c1_amended {δ ρ : Type} (exc : Option String)
    (l : List (Step × ActionResult δ)) (ext : ActionResult δ → List ρ)
    (process : List ρ → List ρ) :
    ((executeM exc l ext process).status = "success" ∨
        (executeM exc l ext process).status = "error")
  ∧ (exc = none →
      ((executeM exc l ext process).status = "success" ↔ (execute_steps ext l).1 ≠ []))
  ∧ (∀ e, exc = some e → (executeM exc l ext process).status = "error")
  ∧ (exc = none → (∀ x ∈ l, x.1.action ≠ "extract") →
      (executeM exc l ext process).status = "error") := by
  cases exc with
  | some e => exact ⟨Or.inr rfl, by simp, fun _ _ => rfl, by simp⟩
  | none =>
    refine ⟨?_, ?_, by simp, ?_⟩
    · simp only [executeM]
      split <;> [exact Or.inl rfl; exact Or.inr rfl]
    · intro _
      by_cases hres : (execute_steps ext l).1 = []
      · simp [executeM, hres]
      · simp [executeM, List.isEmpty_iff, hres]
    · intro _ hno
      simp only [executeM, execute_steps_no_extract ext l hno]
      simp

/-- C1 counterexample: a plan with no extraction steps, all of whose steps succeed, with no exception, yields status "error" — the claim predicted "success" when the plan required no extraction. -/
theorem c1_cex :
    (executeM none [(c1goto, okResult), (c1wait, okResult)]
        (fun _ => ([] : List Unit)) id).status = "error"
  ∧ (∀ x ∈ [(c1goto, okResult), (c1wait, okResult)], x.1.action ≠ "extract")
  ∧ (∀ x ∈ [(c1goto, okResult), (c1wait, okResult)], x.2.success = true) := by
  refine ⟨rfl, ?_, ?_⟩ <;> decide

/-- C1 witness: a one-step goto plan with no extraction yields status "error". -/
theorem c1_amended_witness :
    (executeM none [(c1goto, okResult)] (fun _ => ([] : List Unit)) id).status
      = "error" :=
  (c1_amended none [(c1goto, okResult)] (fun _ => ([] : List Unit)) id).2.2.2 rfl
    (by decide)

/-- C4: when a step fails after exhausting its retries, the remaining plan is aborted if and only if the failed step action is goto or click: provided no earlier step aborted, a critical failure stops the attempted-step count at that step, while a non-critical failure continues through the full remaining plan. -/
theorem c4_abort {δ ρ : Type} (ext : ActionResult δ → List ρ)
    (pre post : List (Step × ActionResult δ)) (s : Step) (r : ActionResult δ)
    (hpre : ∀ x ∈ pre, x.2.success = true ∨ (x.1.action ≠ "goto" ∧ x.1.action ≠ "click"))
    (hr : r.success = false) :
    ((s.action = "goto" ∨ s.action = "click") →
      (execute_steps ext (pre ++ (s, r) :: post)).2 = pre.length + 1)
  ∧ ((s.action ≠ "goto" ∧ s.action ≠ "click") →
      (execute_steps ext (pre ++ (s, r) :: post)).2
        = pre.length + 1 + (execute_steps ext post).2) := by
  induction pre with
  | nil =>
    constructor
    · intro hcrit
      simp only [List.nil_append, execute_steps, hr]
      rw [if_neg (by simp), if_pos hcrit]
      rfl
    · intro hncrit
      simp only [List.nil_append, execute_steps, hr]
      rw [if_neg (by simp), if_neg (by rcases hncrit with ⟨h1, h2⟩; rintro (h | h) <;> simp_all)]
      simp [Nat.add_comm]
  | cons x rest ih =>
    obtain ⟨xs, xr⟩ := x
    have hx := hpre (xs, xr) (List.mem_cons_self _ _)
    have hrest : ∀ y ∈ rest, y.2.success = true ∨ (y.1.action ≠ "goto" ∧ y.1.action ≠ "click") :=
      fun y hy => hpre y (List.mem_cons_of_mem _ hy)
    have ih2 := ih hrest
    constructor <;> intro hcase
    · rw [List.cons_append, execute_steps]
      rcases hx with hx | hx
      · rw [if_pos hx]
        dsimp only
        rw [ih2.1 hcase]
        simp only [List.length_cons]
        try omega
      · split
        · dsimp only
          rw [ih2.1 hcase]
          simp only [List.length_cons]
          try omega
        · rw [if_neg (by rcases hx with ⟨h1, h2⟩; rintro (h | h) <;> simp_all)]
          dsimp only
          rw [ih2.1 hcase]
          simp only [List.length_cons]
          try omega
    · rw [List.cons_append, execute_steps]
      rcases hx with hx | hx
      · rw [if_pos hx]
        dsimp only
        rw [ih2.2 hcase]
        simp only [List.length_cons]
        try omega
      · split
        · dsimp only
          rw [ih2.2 hcase]
          simp only [List.length_cons]
          try omega
        · rw [if_neg (by rcases hx with ⟨h1, h2⟩; rintro (h | h) <;> simp_all)]
          dsimp only
          rw [ih2.2 hcase]
          simp only [List.length_cons]
          try omega

/-- C4 witness: a failing fill step does not abort — the following step is still attempted. -/
theorem c4_abort_witness :
    (execute_steps (fun _ => ([] : List Unit))
        ([] ++ (c4fill, failResult) :: [(c1wait, okResult)])).2 = 0 + 1 +
      (execute_steps (fun _ => ([] : List Unit)) [(c1wait, okResult)]).2 :=
  (c4_abort (fun _ => ([] : List Unit)) [] [(c1wait, okResult)] c4fill failResult
    (by decide) (by decide)).2 (by decide)

/-- Every record kept by `_cleanup_old_memories` comes from the
TTL-filtered pool. -/
theorem cleanup_mem_pool {ρ : Type} (now : Int) (l : List (MemoryEntry ρ)) :
    ∀ m ∈ cleanup_old_memories now l, m ∈ ttl_filtered now l := by
  intro m hm
  rw [cleanup_old_memories] at hm
  split at hm
  · exact (List.perm_insertionSort
      (fun (a b : MemoryEntry ρ) => b.timestamp ≤ a.timestamp) _).mem_iff.mp
      (List.take_subset _ _ hm)
  · exact hm

/-- When the TTL-filtered pool fits under the maximum, cleanup keeps it
whole: no eviction happens. -/
theorem cleanup_eq_of_le {ρ : Type} (now : Int) (l : List (MemoryEntry ρ))
    (h : (ttl_filtered now l).length ≤ max_memories) :
    cleanup_old_memories now l = ttl_filtered now l := by
  rw [cleanup_old_memories, if_neg (Nat.not_lt.mpr h)]

/-- When the TTL-filtered pool overflows, cleanup keeps exactly the maximum
number of entries. -/
theorem cleanup_length_of_lt {ρ : Type} (now : Int) (l : List (MemoryEntry ρ))
    (h : max_memories < (ttl_filtered now l).length) :
    (cleanup_old_memories now l).length = max_memories := by
  rw [cleanup_old_memories, if_pos h, List.length_take, List.length_insertionSort]
  exact min_eq_left (le_of_lt h)

/-- Eviction keeps only the most recent entries: every TTL-surviving entry
that cleanup drops is no more recent than any entry it keeps. -/
theorem cleanup_keeps_most_recent {ρ : Type} (now : Int) (l : List (MemoryEntry ρ)) :
    ∀ d ∈ ttl_filtered now l, d ∉ cleanup_old_memories now l →
      ∀ k ∈ cleanup_old_memories now l, d.timestamp ≤ k.timestamp := by
  intro d hd hdn k hk
  rw [cleanup_old_memories] at hdn hk
  by_cases hc : max_memories < (ttl_filtered now l).length
  · rw [if_pos hc] at hdn hk
    have hsort : List.Sorted (fun (a b : MemoryEntry ρ) => b.timestamp ≤ a.timestamp)
        ((ttl_filtered now l).insertionSort
          (fun a b => b.timestamp ≤ a.timestamp)) :=
      List.sorted_insertionSort _ _
    have hd2 : d ∈ (ttl_filtered now l).insertionSort
        (fun (a b : MemoryEntry ρ) => b.timestamp ≤ a.timestamp) :=
      (List.perm_insertionSort _ _).mem_iff.mpr hd
    have hsplit := List.take_append_drop max_memories
      ((ttl_filtered now l).insertionSort
        (fun (a b : MemoryEntry ρ) => b.timestamp ≤ a.timestamp))
    rw [← hsplit] at hsort hd2
    have hcross := (List.pairwise_append.mp hsort).2.2
    rcases List.mem_append.mp hd2 with h | h
    · exact absurd h hdn
    · exact hcross k hk d h
  · rw [if_neg hc] at hdn
    exact absurd hd hdn

/-- C8: after every `add_memory` call the store contains no entry older than
the 7-day time-to-live and at most 100 entries; every kept entry comes from
the appended-then-TTL-filtered pool; when that pool fits under the maximum
it is kept whole, and when it overflows exactly 100 entries survive and
every dropped pool entry is no more recent (by timestamp) than any kept
entry — the excess is removed by keeping only the most recent.  Both
retention steps run on the insert itself, never lazily. -/
theorem c8_retention {ρ : Type} (now : Int) (new_id instruction : String)
    (result : ρ) (success : Bool) (task_type : String)
    (memories : List (MemoryEntry ρ)) (ctx : SessionContextM) :
    (∀ m ∈ (add_memory now new_id instruction result success task_type memories ctx).2.1,
        now - m.timestamp < memory_ttl_days)
  ∧ (add_memory now new_id instruction result success task_type memories ctx).2.1.length
      ≤ max_memories
  ∧ (∀ m ∈ (add_memory now new_id instruction result success task_type memories ctx).2.1,
        m ∈ ttl_filtered now
          (memories ++ [mk_memory_entry now new_id instruction result success task_type]))
  ∧ ((ttl_filtered now
        (memories ++ [mk_memory_entry now new_id instruction result success task_type])).length
          ≤ max_memories →
      (add_memory now new_id instruction result success task_type memories ctx).2.1
        = ttl_filtered now
            (memories ++ [mk_memory_entry now new_id instruction result success task_type]))
  ∧ (max_memories < (ttl_filtered now
        (memories ++ [mk_memory_entry now new_id instruction result success task_type])).length →
      (add_memory now new_id instruction result success task_type memories ctx).2.1.length
        = max_memories)
  ∧ (∀ d ∈ ttl_filtered now
        (memories ++ [mk_memory_entry now new_id instruction result success task_type]),
      d ∉ (add_memory now new_id instruction result success task_type memories ctx).2.1 →
      ∀ k ∈ (add_memory now new_id instruction result success task_type memories ctx).2.1,
        d.timestamp ≤ k.timestamp) := by
  have hkept : (add_memory now new_id instruction result success task_type memories ctx).2.1
      = cleanup_old_memories now
          (memories ++ [mk_memory_entry now new_id instruction result success task_type]) := rfl
  rw [hkept]
  refine ⟨?_, ?_, cleanup_mem_pool now _, cleanup_eq_of_le now _,
    cleanup_length_of_lt now _, cleanup_keeps_most_recent now _⟩
  · intro m hm
    have h2 := cleanup_mem_pool now _ m hm
    rw [ttl_filtered] at h2
    have h3 := (List.mem_filter.mp h2).2
    simp only [decide_eq_true_eq] at h3
    omega
  · by_cases hc : max_memories < (ttl_filtered now
        (memories ++ [mk_memory_entry now new_id instruction result success task_type])).length
    · rw [cleanup_length_of_lt now _ hc]
    · rw [cleanup_eq_of_le now _ (Nat.le_of_not_lt hc)]
      exact Nat.le_of_not_lt hc

/-- C8 witness: at a concrete insert into an empty store the length bound
holds, and the under-capacity branch keeps the TTL-filtered pool whole. -/
theorem c8_retention_witness :
    (add_memory 10 "id1" "i" () true "search" [] ⟨0, 0, 0, 0⟩).2.1.length ≤ max_memories
  ∧ (add_memory 10 "id1" "i" () true "search" [] ⟨0, 0, 0, 0⟩).2.1
      = ttl_filtered 10 ([] ++ [mk_memory_entry 10 "id1" "i" () true "search"]) :=
  ⟨(c8_retention 10 "id1" "i" () true "search" [] ⟨0, 0, 0, 0⟩).2.1,
   (c8_retention 10 "id1" "i" () true "search" [] ⟨0, 0, 0, 0⟩).2.2.2.1 (by decide)⟩
